import Mathlib

/-!
# Verification of the Weird DNS server (src/src/lib/dns/server.ts)

A shallow embedding of the answer-resolution pipeline of the Weird DNS
server, together with proofs about its behaviour.

The source is a single TypeScript module.  Its parts are embedded as
follows:

* `escapeStringForEmbeddingInRegex` — the character-escaping helper,
  embedded per character (the source uses a global regex replace over the
  character class of regex metacharacters, which rewrites each occurrence
  of a metacharacter `c` to the two-character sequence `\c`).
* the two pattern objects `WEIRD_HOST_TXT_RECORD_REGEX` and
  `WEIRD_HOST_A_RECORD_REGEX` — embedded as abstract-syntax trees of a
  small regex fragment (`RE`), compiled from the escaped parent-domain
  string by `compileAtoms`, with a big-step matching semantics `RMatch`.
* the per-question resolution of the dynamic-registry middleware and of
  the development-mode forwarding middleware — embedded as pure functions
  over an explicit registry oracle / upstream-resolver oracle, with
  `Except` modelling operations that may fail.
* a promise that is never resolved (which stalls the `Promise.all` join
  of a middleware) is modelled by `Option.none` at the stage level.
-/

/-- DNS record types occurring in the server's switch statements.  Any
type other than A / TXT / NS falls into the default branches, which is
modelled by the catch-all constructor. -/
inductive RType where
  | A
  | TXT
  | NS
  | other (s : String)
deriving DecidableEq

/-- A DNS question: `{ name, type }` as destructured from
`req.packet.questions` in the source. -/
structure Question where
  name : String
  type : RType
deriving DecidableEq

/-- A DNS answer as constructed by the middleware:
`{ name, type, data, ttl }`. -/
structure Answer where
  name : String
  type : RType
  data : String
  ttl : Nat
deriving DecidableEq

/-- The request side of a middleware invocation: the ordered question
sequence `req.packet.questions`. -/
structure Request where
  questions : List Question
deriving DecidableEq

/-- The response side of a middleware invocation: the accumulated answer
sequence `res.packet.answers`. -/
structure Response where
  answers : List Answer
deriving DecidableEq

/-- The Redis-backed registry as seen by the middleware: `redis.get`
returns a value or `null` (`Option String`), `redis.exists` returns the
number of existing keys (`Nat`, `0` when absent).  Either call may fail
with a transport/registry error, modelled by `Except Unit`. -/
structure Registry where
  get : String → Except Unit (Option String)
  existsCount : String → Except Unit Nat

/-- `REDIS_USER_PREFIX` of the source: the fixed key namespace prepended
to a username before querying the registry. -/
def redisUserKeyBase : String := "weird:users:"

/-! ## The regex fragment

The source builds its two patterns by interpolating the escaped parent
domain into the template strings
`^_weird\.([^\.]*)\.${escaped}$` and `^([^\.]*)\.${escaped}$`.
We embed the fragment of JavaScript regexes that these patterns live in:
literal characters, the wildcard `.`, negated character classes, a
capture group, concatenation and Kleene star.  The anchors `^ … $` are
embedded by letting the semantics be whole-string matching. -/

/-- Abstract syntax of the regex fragment. -/
inductive RE where
  | eps
  | lit (c : Char)
  | anyc
  | ncls (cs : List Char)
  | group (r : RE)
  | cat (r₁ r₂ : RE)
  | star (r : RE)
deriving DecidableEq

/-- Big-step matching semantics of the regex fragment: `RMatch r s` holds
iff the pattern `r` matches exactly the character list `s`.  The wildcard
`anyc` (an unescaped `.` in a pattern) matches any character; `ncls cs`
(the class `[^cs]`) matches any single character not listed. -/
inductive RMatch : RE → List Char → Prop where
  | eps : RMatch .eps []
  | lit (c : Char) : RMatch (.lit c) [c]
  | anyc (c : Char) : RMatch .anyc [c]
  | ncls (cs : List Char) (c : Char) : c ∉ cs → RMatch (.ncls cs) [c]
  | group {r : RE} {s : List Char} : RMatch r s → RMatch (.group r) s
  | cat {r₁ r₂ : RE} {s₁ s₂ : List Char} :
      RMatch r₁ s₁ → RMatch r₂ s₂ → RMatch (.cat r₁ r₂) (s₁ ++ s₂)
  | starNil (r : RE) : RMatch (.star r) []
  | starCons {r : RE} {s₁ s₂ : List Char} :
      RMatch r s₁ → RMatch (.star r) s₂ → RMatch (.star r) (s₁ ++ s₂)

/-- Concatenation of a sequence of regexes. -/
def seqRE (l : List RE) : RE := l.foldr .cat .eps

/-- The metacharacter class of the source's escaping helper:
`[.*+?^${}()|[\]\\]`. -/
def isRegexSpecial (c : Char) : Bool :=
  c = '.' || c = '*' || c = '+' || c = '?' || c = '^' || c = '$' ||
  c = '\x7b' || c = '\x7d' || c = '(' || c = ')' || c = '|' ||
  c = '[' || c = ']' || c = '\\'

/-- One step of the source's global replace `s.replace(/[.…]/g, '\\$&')`:
a metacharacter becomes a backslash followed by itself, any other
character is kept. -/
def escChar (c : Char) : List Char :=
  if isRegexSpecial c then ['\\', c] else [c]

/-- `escapeStringForEmbeddingInRegex` of the source: escape every regex
metacharacter of `s` so that the result can be embedded literally into a
pattern. -/
def escapeStringForEmbeddingInRegex (s : String) : String :=
  String.mk (s.data.flatMap escChar)

/-- Compilation of a pattern substring (as interpolated between the fixed
template parts) into a sequence of regex atoms, following JavaScript
pattern syntax on this fragment: `\c` denotes the literal character `c`,
an unescaped `.` denotes the wildcard, any other unescaped metacharacter
is outside the fragment (`none`), and an ordinary character denotes
itself. -/
def compileAtoms : List Char → Option (List RE)
  | [] => some []
  | [c] =>
    if c = '\\' then none
    else if c = '.' then some [RE.anyc]
    else if isRegexSpecial c then none
    else some [RE.lit c]
  | c :: d :: rest =>
    if c = '\\' then (compileAtoms rest).map (fun l => RE.lit d :: l)
    else if c = '.' then (compileAtoms (d :: rest)).map (fun l => RE.anyc :: l)
    else if isRegexSpecial c then none
    else (compileAtoms (d :: rest)).map (fun l => RE.lit c :: l)

/-- `WEIRD_HOST_TXT_RECORD_REGEX` of the source, as an atom sequence:
the template `^_weird\.([^\.]*)\.${escaped parent}$` with the fixed parts
compiled directly (`_weird` is six literal characters, `\.` a literal
dot, `([^\.]*)` a capture group around a starred dot-excluding class) and
the interpolated part compiled by `compileAtoms` from the escaped parent
domain.  `none` would mean the interpolation falls outside the fragment. -/
def weirdHostTxtRecordRegex (parent : String) : Option (List RE) :=
  (compileAtoms (escapeStringForEmbeddingInRegex parent).data).map
    (fun pa =>
      "_weird".data.map RE.lit ++
        [RE.lit '.', RE.group (RE.star (RE.ncls ['.'])), RE.lit '.'] ++ pa)

/-- `WEIRD_HOST_A_RECORD_REGEX` of the source, as an atom sequence: the
template `^([^\.]*)\.${escaped parent}$`. -/
def weirdHostARecordRegex (parent : String) : Option (List RE) :=
  (compileAtoms (escapeStringForEmbeddingInRegex parent).data).map
    (fun pa =>
      [RE.group (RE.star (RE.ncls ['.'])), RE.lit '.'] ++ pa)

/-- `PUBLIC_USER_DOMAIN_PARENT.split(':')[0]` / `PUBLIC_DOMAIN.split(':')[0]`
of the source: the part of a configured domain before the first colon. -/
def hostPart (s : String) : String :=
  String.mk (s.data.takeWhile (fun c => c ≠ ':'))

/-- The atom sequence the TXT pattern always compiles to. -/
def txtAtomsOf (parent : String) : List RE :=
  "_weird".data.map RE.lit ++
    [RE.lit '.', RE.group (RE.star (RE.ncls ['.'])), RE.lit '.'] ++ parent.data.map RE.lit

/-- The atom sequence the A pattern always compiles to. -/
def aAtomsOf (parent : String) : List RE :=
  [RE.group (RE.star (RE.ncls ['.'])), RE.lit '.'] ++ parent.data.map RE.lit

/-! ## Executable matchers

`name.match(REGEX)?.[1]` on the two anchored patterns above.  Because the
capture group is a starred class that excludes the dot and is followed by
a literal dot, the group can only match the maximal dot-free segment
after the fixed part, so the executable matchers below take the dot-free
run with `takeWhile` and then require a literal dot followed by exactly
the parent domain.  `txtMatch_iff` / `aMatch_iff` below prove these
functions compute precisely the match-with-capture semantics of the
compiled patterns. -/

/-- Strip a leading fixed character sequence, returning the remainder. -/
def dropLead : List Char → List Char → Option (List Char)
  | [], s => some s
  | _ :: _, [] => none
  | p :: ps, c :: cs => if c = p then dropLead ps cs else none

/-- `name.match(WEIRD_HOST_TXT_RECORD_REGEX)?.[1]`: the username captured
from a TXT query name, or `none` when the pattern does not match.  After
the fixed `_weird.` part, the capture is the maximal dot-free run and the
remainder must be a literal dot followed by exactly the parent domain. -/
def txtMatch (parent name : String) : Option String :=
  match dropLead "_weird.".data name.data with
  | none => none
  | some rest =>
    if rest.dropWhile (fun c => c ≠ '.') = '.' :: parent.data then
      some (String.mk (rest.takeWhile (fun c => c ≠ '.')))
    else none

/-- `name.match(WEIRD_HOST_A_RECORD_REGEX)?.[1]`: the username captured
from an A query name, or `none` when the pattern does not match. -/
def aMatch (parent name : String) : Option String :=
  if name.data.dropWhile (fun c => c ≠ '.') = '.' :: parent.data then
    some (String.mk (name.data.takeWhile (fun c => c ≠ '.')))
  else none

/-! ## The middleware stages

Each middleware receives `(req, res, next)`.  We embed a stage as a
function from the request and the current response to the new response
paired with a `Bool` recording whether `next` was invoked.  The
dynamic-registry stage can in addition fail to settle (see below), which
is modelled by wrapping its result in `Option`. -/

/-- `res.answer(list)` of the dinodns response object.  Modelled from the
spec: the registry stage "appends it to the response's answer set" and
stages "only append"; every call site in the source is guarded by
`answers.length == 0`, where appending and overwriting coincide. -/
def respondAnswers (res : Response) (new : List Answer) : Response :=
  { res with answers := res.answers ++ new }

/-- Per-question resolution of the dynamic-registry middleware (the body
of the `switch (type)` at lines 74–105 of the source).

The result is the fate of the per-question promise:
* `some (some l)` — the promise was resolved with the answer list `l`;
* `some none` — the promise was resolved with `null` (no answer);
* `none` — the promise was never resolved: a rejected registry call
  throws inside the `async` promise executor, the rejection is not
  caught, and the executor's `returnAnswers` is never reached.

JavaScript truthiness is embedded faithfully: the guards
`if (!txtUsername)`, `if (!pubkey)` treat the empty string like `null`,
and `if (!exists)` treats the count `0` as false. -/
def resolveQuestionDyn (reg : Registry) (selfIps : List String)
    (parent : String) (q : Question) : Option (Option (List Answer)) :=
  match q.type with
  | .TXT =>
    match txtMatch parent q.name with
    | none => some none
    | some txtUsername =>
      if txtUsername = "" then some none
      else
        match reg.get (redisUserKeyBase ++ txtUsername) with
        | .error _ => none
        | .ok pubkey =>
          match pubkey with
          | none => some none
          | some v =>
            if v = "" then some none
            else some (some [{ name := q.name, type := q.type, data := v, ttl := 0 }])
  | .A =>
    match aMatch parent q.name with
    | none => some none
    | some aUsername =>
      if aUsername = "" then some none
      else
        match reg.existsCount (redisUserKeyBase ++ aUsername) with
        | .error _ => none
        | .ok n =>
          if n = 0 then some none
          else some (some (selfIps.map
            (fun ip => { name := q.name, type := q.type, data := ip, ttl := 300 })))
  | _ => some none

/-- The dynamic-registry middleware (lines 66–118 of the source).

* If the response already has answers, return `next()` at once.
* Otherwise resolve every question concurrently and join
  (`Promise.all`); if any per-question promise never settles the join
  never completes and the whole stage never settles (`none`) — neither
  `res.answer` nor `next` is ever reached.
* Otherwise drop the `null` results, flatten, append the flattened list
  via `res.answer` when it is non-empty, and call `next`. -/
def registryStage (reg : Registry) (selfIps : List String) (parent : String)
    (req : Request) (res : Response) : Option (Response × Bool) :=
  if res.answers.length > 0 then some (res, true)
  else
    let results := req.questions.map (resolveQuestionDyn reg selfIps parent)
    if results.all (fun r => r.isSome) then
      let filtered := (results.filterMap id).filterMap id |>.flatten
      some (if filtered.length > 0 then respondAnswers res filtered else res, true)
    else
      none

/-- The local server address `127.0.0.1:${DNS_PORT}` used by the
development forwarder. -/
def localServerOf (port : Nat) : String := "127.0.0.1:" ++ toString port

/-- The upstream recursive resolvers captured by the development
forwarder: `resolver.resolve(name, type, cb)` either succeeds with a
record list or fails. -/
def Upstream : Type := String → RType → Except Unit (List String)

/-- Per-question resolution of the development-mode forwarding middleware
(the body of the `switch (type)` at lines 142–173 of the source).

* TXT/A: delegate to the upstream resolvers; on success wrap each record,
  on error resolve with the empty list — so this promise always settles.
* NS: resolve with a single fabricated answer pointing at the local
  server.  (In the source this case has no `break` and falls through to
  the default branch, whose `returnAnswers(null)` is a second resolution
  of an already-resolved promise and therefore has no effect.)
* anything else: resolve with `null`. -/
def resolveQuestionFwd (upstream : Upstream) (localServer : String)
    (q : Question) : Option (List Answer) :=
  match q.type with
  | .TXT =>
    match upstream q.name q.type with
    | .ok ans => some (ans.map
        (fun a => { name := q.name, type := q.type, data := a, ttl := 300 }))
    | .error _ => some []
  | .A =>
    match upstream q.name q.type with
    | .ok ans => some (ans.map
        (fun a => { name := q.name, type := q.type, data := a, ttl := 300 }))
    | .error _ => some []
  | .NS => some [{ name := q.name, type := q.type, data := localServer, ttl := 300 }]
  | _ => none

/-- The development-mode forwarding middleware (lines 128–187 of the
source).

* If the response already has answers, `return` — without calling `next`.
* Otherwise resolve every question, drop the `null` results, flatten,
  pass the flattened list to `res.answer` unconditionally, and call
  `next`.  Every per-question promise settles here, so the stage always
  completes. -/
def forwardStage (upstream : Upstream) (localServer : String)
    (req : Request) (res : Response) : Response × Bool :=
  if res.answers.length > 0 then (res, false)
  else
    let results := req.questions.map (resolveQuestionFwd upstream localServer)
    (respondAnswers res ((results.filterMap id).flatten), true)

/-- Modelled from the spec: the static-record store's `handler` middleware
(the dinodns `DefaultStore` used at lines 44–63 of the source is
collaborator code outside this repository).  Per the spec it "looks up
`(name, type)` and, if present, appends the corresponding answers … to
the response, otherwise does nothing", then the pipeline continues. -/
def staticStage (store : List ((String × RType) × List Answer))
    (req : Request) (res : Response) : Response × Bool :=
  let found := req.questions.filterMap
    (fun q => (store.lookup (q.name, q.type)).map id)
  (respondAnswers res found.flatten, true)

/-! ## Concrete collaborators used in witnesses and counterexamples -/

/-- A sample registry with exactly one user: `alice`, bound to the proof
value `pk123`. -/
def sampleRegistry : Registry where
  get := fun k => if k = "weird:users:alice" then Except.ok (some "pk123") else Except.ok none
  existsCount := fun k => if k = "weird:users:alice" then Except.ok 1 else Except.ok 0

/-- A registry in which `alice` is registered but bound to the empty
string. -/
def emptyValueRegistry : Registry where
  get := fun k => if k = "weird:users:alice" then Except.ok (some "") else Except.ok none
  existsCount := fun k => if k = "weird:users:alice" then Except.ok 1 else Except.ok 0

/-- A registry whose operations always fail with a transport error. -/
def failingRegistry : Registry where
  get := fun _ => Except.error ()
  existsCount := fun _ => Except.error ()

/-- A sample upstream resolver that returns one record for every
question. -/
def sampleUpstream : Upstream := fun _ _ => Except.ok ["93.184.216.34"]

/-- An upstream resolver that always fails. -/
def failingUpstream : Upstream := fun _ _ => Except.error ()

/-! ## Matching lemmas -/

theorem rmatch_eps_iff (s : List Char) : RMatch .eps s ↔ s = [] := by
  constructor
  · intro h; cases h; rfl
  · rintro rfl; exact .eps

theorem rmatch_lit_iff (c : Char) (s : List Char) : RMatch (.lit c) s ↔ s = [c] := by
  constructor
  · intro h; cases h; rfl
  · rintro rfl; exact .lit c

theorem rmatch_group_iff (r : RE) (s : List Char) : RMatch (.group r) s ↔ RMatch r s := by
  constructor
  · intro h; cases h; assumption
  · exact .group

theorem rmatch_cat_iff (r₁ r₂ : RE) (s : List Char) :
    RMatch (.cat r₁ r₂) s ↔ ∃ s₁ s₂, s = s₁ ++ s₂ ∧ RMatch r₁ s₁ ∧ RMatch r₂ s₂ := by
  constructor
  · intro h
    cases h with
    | cat h₁ h₂ => exact ⟨_, _, rfl, h₁, h₂⟩
  · rintro ⟨s₁, s₂, rfl, h₁, h₂⟩; exact .cat h₁ h₂

theorem rmatch_star_ncls_iff (cs : List Char) (s : List Char) :
    RMatch (.star (.ncls cs)) s ↔ ∀ c ∈ s, c ∉ cs := by
  constructor
  · intro h
    generalize hr : RE.star (RE.ncls cs) = r at h
    induction h with
    | eps => cases hr
    | lit c => cases hr
    | anyc c => cases hr
    | ncls cs c hc => cases hr
    | group h ih => cases hr
    | cat h₁ h₂ ih₁ ih₂ => cases hr
    | starNil r => intro c hc; cases hc
    | starCons h₁ h₂ ih₁ ih₂ =>
      injection hr with hr'
      subst hr'
      cases h₁ with
      | ncls cs c hc =>
        intro x hx
        rcases List.mem_append.mp hx with hx | hx
        · rcases List.mem_singleton.mp hx with rfl; exact hc
        · exact ih₂ rfl x hx
  · intro h
    induction s with
    | nil => exact .starNil _
    | cons c s ih =>
      have : RMatch (.star (.ncls cs)) ([c] ++ s) :=
        .starCons (.ncls cs c (h c (by simp))) (ih (fun x hx => h x (by simp [hx])))
      simpa using this

theorem rmatch_seq_nil_iff (s : List Char) : RMatch (seqRE []) s ↔ s = [] := by
  simpa [seqRE] using rmatch_eps_iff s

theorem rmatch_seq_cons_iff (r : RE) (rs : List RE) (s : List Char) :
    RMatch (seqRE (r :: rs)) s ↔ ∃ s₁ s₂, s = s₁ ++ s₂ ∧ RMatch r s₁ ∧ RMatch (seqRE rs) s₂ := by
  simpa [seqRE] using rmatch_cat_iff r (seqRE rs) s

theorem rmatch_seq_append_iff (xs ys : List RE) (s : List Char) :
    RMatch (seqRE (xs ++ ys)) s ↔
      ∃ s₁ s₂, s = s₁ ++ s₂ ∧ RMatch (seqRE xs) s₁ ∧ RMatch (seqRE ys) s₂ := by
  induction xs generalizing s with
  | nil =>
    simp only [List.nil_append]
    constructor
    · intro h; exact ⟨[], s, rfl, (rmatch_seq_nil_iff []).mpr rfl, h⟩
    · rintro ⟨s₁, s₂, rfl, h₁, h₂⟩
      rcases (rmatch_seq_nil_iff s₁).mp h₁ with rfl
      simpa using h₂
  | cons r rs ih =>
    simp only [List.cons_append, rmatch_seq_cons_iff]
    constructor
    · rintro ⟨s₁, s₂, rfl, h₁, h₂⟩
      rcases (ih s₂).mp h₂ with ⟨t₁, t₂, rfl, ht₁, ht₂⟩
      exact ⟨s₁ ++ t₁, t₂, by simp, ⟨s₁, t₁, rfl, h₁, ht₁⟩, ht₂⟩
    · rintro ⟨s₁, s₂, rfl, ⟨t₁, t₂, rfl, ht₁, ht₂⟩, h₂⟩
      exact ⟨t₁, t₂ ++ s₂, by simp, ht₁, (ih _).mpr ⟨t₂, s₂, rfl, ht₂, h₂⟩⟩

theorem rmatch_litSeq_iff (l : List Char) (s : List Char) :
    RMatch (seqRE (l.map RE.lit)) s ↔ s = l := by
  induction l generalizing s with
  | nil => simpa using rmatch_seq_nil_iff s
  | cons c l ih =>
    simp only [List.map_cons, rmatch_seq_cons_iff]
    constructor
    · rintro ⟨s₁, s₂, rfl, h₁, h₂⟩
      rcases (rmatch_lit_iff c s₁).mp h₁ with rfl
      rcases (ih s₂).mp h₂ with rfl
      rfl
    · rintro rfl
      exact ⟨[c], l, rfl, .lit c, (ih l).mpr rfl⟩

/-! ## The escaping lemma

Escaping makes every character of the parent domain compile to a literal
atom — in particular a dot in the parent domain compiles to `RE.lit '.'`
(matching only a literal dot), never to the wildcard `RE.anyc`. -/

theorem compileAtoms_escChar (c : Char) (rest : List Char) :
    compileAtoms (escChar c ++ rest) = (compileAtoms rest).map (fun l => RE.lit c :: l) := by
  by_cases hsp : isRegexSpecial c
  · simp [escChar, hsp, compileAtoms]
  · have hb : c ≠ '\\' := by rintro rfl; simp [isRegexSpecial] at hsp
    have hd : c ≠ '.' := by rintro rfl; simp [isRegexSpecial] at hsp
    cases rest with
    | nil => simp [escChar, hsp, compileAtoms, hb, hd]
    | cons d rest => simp [escChar, hsp, compileAtoms, hb, hd]

theorem compileAtoms_escape (l : List Char) :
    compileAtoms (l.flatMap escChar) = some (l.map RE.lit) := by
  induction l with
  | nil => rfl
  | cons c l ih => simp [List.flatMap_cons, compileAtoms_escChar, ih]

theorem compileAtoms_escape_str (s : String) :
    compileAtoms (escapeStringForEmbeddingInRegex s).data = some (s.data.map RE.lit) := by
  simpa [escapeStringForEmbeddingInRegex] using compileAtoms_escape s.data

theorem weirdHostTxtRecordRegex_eq (parent : String) :
    weirdHostTxtRecordRegex parent = some (txtAtomsOf parent) := by
  simp [weirdHostTxtRecordRegex, compileAtoms_escape_str, txtAtomsOf]

theorem weirdHostARecordRegex_eq (parent : String) :
    weirdHostARecordRegex parent = some (aAtomsOf parent) := by
  simp [weirdHostARecordRegex, compileAtoms_escape_str, aAtomsOf]

/-! ## Language characterization of the two patterns -/

theorem rmatch_txtAtoms_iff (parent : String) (s : List Char) :
    RMatch (seqRE (txtAtomsOf parent)) s ↔
      ∃ u, s = "_weird.".data ++ u ++ '.' :: parent.data ∧ ∀ c ∈ u, c ≠ '.' := by
  constructor
  · intro h
    rw [txtAtomsOf] at h
    rcases (rmatch_seq_append_iff _ _ _).mp h with ⟨s₁, s₂, rfl, h₁, h₂⟩
    rcases (rmatch_seq_append_iff _ _ _).mp h₁ with ⟨w, m, rfl, hw, hm⟩
    rcases (rmatch_litSeq_iff _ _).mp hw with rfl
    rcases (rmatch_seq_cons_iff _ _ _).mp hm with ⟨d₁, m₂, rfl, hd₁, hm₂⟩
    rcases (rmatch_lit_iff _ _).mp hd₁ with rfl
    rcases (rmatch_seq_cons_iff _ _ _).mp hm₂ with ⟨g, m₃, rfl, hg, hm₃⟩
    rcases (rmatch_seq_cons_iff _ _ _).mp hm₃ with ⟨d₂, m₄, rfl, hd₂, hm₄⟩
    rcases (rmatch_lit_iff _ _).mp hd₂ with rfl
    rcases (rmatch_seq_nil_iff _).mp hm₄ with rfl
    rcases (rmatch_litSeq_iff _ _).mp h₂ with rfl
    have hg' := (rmatch_star_ncls_iff _ _).mp ((rmatch_group_iff _ _).mp hg)
    refine ⟨g, ?_, fun c hc => by simpa using hg' c hc⟩
    simp
  · rintro ⟨u, rfl, hu⟩
    rw [txtAtomsOf]
    refine (rmatch_seq_append_iff _ _ _).mpr
      ⟨"_weird".data ++ ['.'] ++ u ++ ['.'], parent.data, by simp, ?_, (rmatch_litSeq_iff _ _).mpr rfl⟩
    refine (rmatch_seq_append_iff _ _ _).mpr
      ⟨"_weird".data, ['.'] ++ u ++ ['.'], by simp, (rmatch_litSeq_iff _ _).mpr rfl, ?_⟩
    refine (rmatch_seq_cons_iff _ _ _).mpr ⟨['.'], u ++ ['.'], by simp, .lit '.', ?_⟩
    refine (rmatch_seq_cons_iff _ _ _).mpr
      ⟨u, ['.'], by simp, .group ((rmatch_star_ncls_iff _ _).mpr (fun c hc => by simp [hu c hc])), ?_⟩
    exact (rmatch_seq_cons_iff _ _ _).mpr ⟨['.'], [], by simp, .lit '.', (rmatch_seq_nil_iff _).mpr rfl⟩

theorem rmatch_aAtoms_iff (parent : String) (s : List Char) :
    RMatch (seqRE (aAtomsOf parent)) s ↔
      ∃ u, s = u ++ '.' :: parent.data ∧ ∀ c ∈ u, c ≠ '.' := by
  constructor
  · intro h
    rw [aAtomsOf] at h
    rcases (rmatch_seq_append_iff _ _ _).mp h with ⟨s₁, s₂, rfl, h₁, h₂⟩
    rcases (rmatch_seq_cons_iff _ _ _).mp h₁ with ⟨g, m₂, rfl, hg, hm₂⟩
    rcases (rmatch_seq_cons_iff _ _ _).mp hm₂ with ⟨d₁, m₃, rfl, hd₁, hm₃⟩
    rcases (rmatch_lit_iff _ _).mp hd₁ with rfl
    rcases (rmatch_seq_nil_iff _).mp hm₃ with rfl
    rcases (rmatch_litSeq_iff _ _).mp h₂ with rfl
    have hg' := (rmatch_star_ncls_iff _ _).mp ((rmatch_group_iff _ _).mp hg)
    exact ⟨g, by simp, fun c hc => by simpa using hg' c hc⟩
  · rintro ⟨u, rfl, hu⟩
    rw [aAtomsOf]
    refine (rmatch_seq_append_iff _ _ _).mpr
      ⟨u ++ ['.'], parent.data, by simp, ?_, (rmatch_litSeq_iff _ _).mpr rfl⟩
    refine (rmatch_seq_cons_iff _ _ _).mpr
      ⟨u, ['.'], by simp, .group ((rmatch_star_ncls_iff _ _).mpr (fun c hc => by simp [hu c hc])), ?_⟩
    exact (rmatch_seq_cons_iff _ _ _).mpr ⟨['.'], [], by simp, .lit '.', (rmatch_seq_nil_iff _).mpr rfl⟩

/-! ## Correctness of the executable matchers -/

theorem dropLead_eq_some_iff (p : List Char) : ∀ (s r : List Char),
    dropLead p s = some r ↔ s = p ++ r := by
  induction p with
  | nil => intro s r; simp [dropLead, eq_comm]
  | cons q qs ih =>
    intro s r
    cases s with
    | nil => simp [dropLead]
    | cons c cs =>
      by_cases h : c = q
      · subst h; simp [dropLead, ih]
      · simp [dropLead, h, Ne.symm h]

theorem takeWhile_append_stop (p : Char → Bool) (u t : List Char) (c0 : Char)
    (hu : ∀ c ∈ u, p c = true) (h0 : p c0 = false) :
    (u ++ c0 :: t).takeWhile p = u ∧ (u ++ c0 :: t).dropWhile p = c0 :: t := by
  induction u with
  | nil => simp [List.takeWhile_cons, List.dropWhile_cons, h0]
  | cons c u ih =>
    have hc : p c = true := hu c (by simp)
    have ih' := ih (fun x hx => hu x (by simp [hx]))
    simp [List.takeWhile_cons, List.dropWhile_cons, hc, ih'.1, ih'.2]

theorem txtMatch_eq_some_iff (parent name : String) (u : String) :
    txtMatch parent name = some u ↔
      name.data = "_weird.".data ++ u.data ++ '.' :: parent.data ∧ ∀ c ∈ u.data, c ≠ '.' := by
  constructor
  · intro h
    rw [txtMatch] at h
    rcases hdl : dropLead "_weird.".data name.data with _ | rest
    · rw [hdl] at h; cases h
    · rw [hdl] at h
      have hname : name.data = "_weird.".data ++ rest := (dropLead_eq_some_iff _ _ _).mp hdl
      have h' : (if rest.dropWhile (fun c => c ≠ '.') = '.' :: parent.data then
          some (String.mk (rest.takeWhile (fun c => c ≠ '.'))) else none) = some u := h
      by_cases hdw : rest.dropWhile (fun c => c ≠ '.') = '.' :: parent.data
      · rw [if_pos hdw] at h'
        injection h' with h2
        subst h2
        have hrest : rest = rest.takeWhile (fun c => c ≠ '.') ++ '.' :: parent.data := by
          rw [← hdw, List.takeWhile_append_dropWhile]
        constructor
        · conv_lhs => rw [hname, hrest]
          simp [List.append_assoc]
        · intro x hx
          have hx' : x ∈ rest.takeWhile (fun c => decide (c ≠ '.')) := hx
          have h2 := List.mem_takeWhile_imp hx'
          simp at h2
          exact h2
      · rw [if_neg hdw] at h'; cases h'
  · rintro ⟨hname, hu⟩
    cases u with
    | mk ud =>
      have hdl : dropLead "_weird.".data name.data = some (ud ++ '.' :: parent.data) :=
        (dropLead_eq_some_iff _ _ _).mpr (by rw [hname, List.append_assoc])
      have hstop := takeWhile_append_stop (fun c => c ≠ '.') ud parent.data '.'
        (fun c hc => by simpa using hu c hc) (by simp)
      rw [txtMatch, hdl]
      show (if (ud ++ '.' :: parent.data).dropWhile (fun c => c ≠ '.') = '.' :: parent.data then
          some (String.mk ((ud ++ '.' :: parent.data).takeWhile (fun c => c ≠ '.'))) else none) =
        some (String.mk ud)
      rw [if_pos hstop.2, hstop.1]

theorem aMatch_eq_some_iff (parent name : String) (u : String) :
    aMatch parent name = some u ↔
      name.data = u.data ++ '.' :: parent.data ∧ ∀ c ∈ u.data, c ≠ '.' := by
  constructor
  · intro h
    rw [aMatch] at h
    by_cases hdw : name.data.dropWhile (fun c => c ≠ '.') = '.' :: parent.data
    · rw [if_pos hdw] at h
      injection h with h2
      subst h2
      have hrest : name.data = name.data.takeWhile (fun c => c ≠ '.') ++ '.' :: parent.data := by
        rw [← hdw, List.takeWhile_append_dropWhile]
      constructor
      · exact hrest
      · intro x hx
        have hx' : x ∈ name.data.takeWhile (fun c => decide (c ≠ '.')) := hx
        have h2 := List.mem_takeWhile_imp hx'
        simp at h2
        exact h2
    · rw [if_neg hdw] at h; cases h
  · rintro ⟨hname, hu⟩
    cases u with
    | mk ud =>
      have hstop := takeWhile_append_stop (fun c => c ≠ '.') ud parent.data '.'
        (fun c hc => by simpa using hu c hc) (by simp)
      rw [aMatch, hname, if_pos hstop.2, hstop.1]

/-- The executable TXT matcher computes exactly the match-with-capture
semantics of the compiled TXT pattern: a name is in the pattern's
language iff the matcher extracts some username from it. -/
theorem txtMatch_lang (parent name : String) :
    (∃ u, txtMatch parent name = some u) ↔ RMatch (seqRE (txtAtomsOf parent)) name.data := by
  rw [rmatch_txtAtoms_iff]
  constructor
  · rintro ⟨u, hu⟩
    rcases (txtMatch_eq_some_iff parent name u).mp hu with ⟨hn, hdf⟩
    exact ⟨u.data, hn, hdf⟩
  · rintro ⟨u, hn, hdf⟩
    exact ⟨String.mk u, (txtMatch_eq_some_iff parent name (String.mk u)).mpr ⟨hn, hdf⟩⟩

/-- The executable A matcher computes exactly the match-with-capture
semantics of the compiled A pattern. -/
theorem aMatch_lang (parent name : String) :
    (∃ u, aMatch parent name = some u) ↔ RMatch (seqRE (aAtomsOf parent)) name.data := by
  rw [rmatch_aAtoms_iff]
  constructor
  · rintro ⟨u, hu⟩
    rcases (aMatch_eq_some_iff parent name u).mp hu with ⟨hn, hdf⟩
    exact ⟨u.data, hn, hdf⟩
  · rintro ⟨u, hn, hdf⟩
    exact ⟨String.mk u, (aMatch_eq_some_iff parent name (String.mk u)).mpr ⟨hn, hdf⟩⟩

theorem txtMatch_mk_name (parent U : String) (hU : ∀ c ∈ U.data, c ≠ '.') :
    txtMatch parent ("_weird." ++ U ++ "." ++ parent) = some U := by
  rw [txtMatch_eq_some_iff]
  refine ⟨?_, hU⟩
  simp [String.data_append]

theorem aMatch_mk_name (parent U : String) (hU : ∀ c ∈ U.data, c ≠ '.') :
    aMatch parent (U ++ "." ++ parent) = some U := by
  rw [aMatch_eq_some_iff]
  refine ⟨?_, hU⟩
  simp [String.data_append]

theorem respondAnswers_if_nonempty (l : List Answer) :
    (if l.length > 0 then respondAnswers ⟨[]⟩ l else ⟨[]⟩) = (⟨l⟩ : Response) := by
  cases l <;> simp [respondAnswers]

/-- C1 (amended: the registered proof value must be non-empty, because
the source's `if (!pubkey)` guard treats the empty string like `null`).
For every username U that is registered in the registry with a non-empty
proof value V, running the dynamic-registry stage on a request containing
the question `(_weird.U.<parent>, TXT)` with an empty prior answer set
produces exactly one answer for that question — name equal to the query
name, type TXT, data `V`, ttl `0` — and that is the whole answer set for
the single-question request. -/
theorem registryStage_txt_registered (reg : Registry) (selfIps : List String)
    (parent U V : String)
    (hU : ∀ c ∈ U.data, c ≠ '.') (hU0 : U ≠ "")
    (hreg : reg.get (redisUserKeyBase ++ U) = Except.ok (some V)) (hV : V ≠ "") :
    resolveQuestionDyn reg selfIps parent ⟨"_weird." ++ U ++ "." ++ parent, .TXT⟩ =
      some (some [⟨"_weird." ++ U ++ "." ++ parent, .TXT, V, 0⟩]) ∧
    registryStage reg selfIps parent ⟨[⟨"_weird." ++ U ++ "." ++ parent, .TXT⟩]⟩ ⟨[]⟩ =
      some (⟨[⟨"_weird." ++ U ++ "." ++ parent, .TXT, V, 0⟩]⟩, true) := by
  have hm := txtMatch_mk_name parent U hU
  have hres : resolveQuestionDyn reg selfIps parent ⟨"_weird." ++ U ++ "." ++ parent, .TXT⟩ =
      some (some [⟨"_weird." ++ U ++ "." ++ parent, .TXT, V, 0⟩]) := by
    simp [resolveQuestionDyn, hm, hU0, hreg, hV]
  refine ⟨hres, ?_⟩
  simp [registryStage, hres, respondAnswers]

theorem registryStage_txt_registered_witness :
    resolveQuestionDyn sampleRegistry ["1.2.3.4"] "example.com"
      ⟨"_weird." ++ "alice" ++ "." ++ "example.com", .TXT⟩ =
      some (some [⟨"_weird." ++ "alice" ++ "." ++ "example.com", .TXT, "pk123", 0⟩]) ∧
    registryStage sampleRegistry ["1.2.3.4"] "example.com"
      ⟨[⟨"_weird." ++ "alice" ++ "." ++ "example.com", .TXT⟩]⟩ ⟨[]⟩ =
      some (⟨[⟨"_weird." ++ "alice" ++ "." ++ "example.com", .TXT, "pk123", 0⟩]⟩, true) :=
  registryStage_txt_registered sampleRegistry ["1.2.3.4"] "example.com" "alice" "pk123"
    (by decide) (by decide) rfl (by decide)

/-- C1 as stated is false on the code: `alice` is registered with the
proof value `""`, yet the stage resolves the TXT question to no answer at
all (the `if (!pubkey)` guard drops the empty string). -/
theorem registryStage_txt_registered_cx :
    emptyValueRegistry.get (redisUserKeyBase ++ "alice") = Except.ok (some "") ∧
    registryStage emptyValueRegistry ["1.2.3.4"] "example.com"
      ⟨[⟨"_weird.alice.example.com", .TXT⟩]⟩ ⟨[]⟩ = some (⟨[]⟩, true) ∧
    ([] : List Answer) ≠ [⟨"_weird.alice.example.com", .TXT, "", 0⟩] := by
  refine ⟨rfl, rfl, by decide⟩

/-- C2: For every registered username U (a non-empty dot-free label — the
shape under which the question name `U.<parent>` carries U as its free
label), running the dynamic-registry stage on the question `(U.<parent>,
A)` with an empty prior answer set produces one answer per element of
the self-IP set, each with name equal to the query name, type A, data
that IP and ttl 300; for every unregistered username (`exists` count 0)
it produces no answer for that question. -/
theorem registryStage_a_record (reg : Registry) (selfIps : List String)
    (parent U : String) (n : Nat)
    (hU : ∀ c ∈ U.data, c ≠ '.') (hU0 : U ≠ "")
    (hreg : reg.existsCount (redisUserKeyBase ++ U) = Except.ok n) :
    (n ≠ 0 →
      resolveQuestionDyn reg selfIps parent ⟨U ++ "." ++ parent, .A⟩ =
        some (some (selfIps.map (fun ip => ⟨U ++ "." ++ parent, .A, ip, 300⟩))) ∧
      registryStage reg selfIps parent ⟨[⟨U ++ "." ++ parent, .A⟩]⟩ ⟨[]⟩ =
        some (⟨selfIps.map (fun ip => ⟨U ++ "." ++ parent, .A, ip, 300⟩)⟩, true)) ∧
    (n = 0 →
      resolveQuestionDyn reg selfIps parent ⟨U ++ "." ++ parent, .A⟩ = some none ∧
      registryStage reg selfIps parent ⟨[⟨U ++ "." ++ parent, .A⟩]⟩ ⟨[]⟩ =
        some (⟨[]⟩, true)) := by
  have hm := aMatch_mk_name parent U hU
  constructor
  · intro hn
    have hres : resolveQuestionDyn reg selfIps parent ⟨U ++ "." ++ parent, .A⟩ =
        some (some (selfIps.map (fun ip => ⟨U ++ "." ++ parent, .A, ip, 300⟩))) := by
      simp [resolveQuestionDyn, hm, hU0, hreg, hn]
    refine ⟨hres, ?_⟩
    cases selfIps <;> simp [registryStage, hres, respondAnswers]
  · intro hn
    subst hn
    have hres : resolveQuestionDyn reg selfIps parent ⟨U ++ "." ++ parent, .A⟩ = some none := by
      simp [resolveQuestionDyn, hm, hU0, hreg]
    refine ⟨hres, ?_⟩
    simp [registryStage, hres]

theorem registryStage_a_record_witness :
    (resolveQuestionDyn sampleRegistry ["1.2.3.4", "5.6.7.8"] "example.com"
        ⟨"alice" ++ "." ++ "example.com", .A⟩ =
      some (some [⟨"alice" ++ "." ++ "example.com", .A, "1.2.3.4", 300⟩,
        ⟨"alice" ++ "." ++ "example.com", .A, "5.6.7.8", 300⟩]) ∧
      registryStage sampleRegistry ["1.2.3.4", "5.6.7.8"] "example.com"
        ⟨[⟨"alice" ++ "." ++ "example.com", .A⟩]⟩ ⟨[]⟩ =
      some (⟨[⟨"alice" ++ "." ++ "example.com", .A, "1.2.3.4", 300⟩,
        ⟨"alice" ++ "." ++ "example.com", .A, "5.6.7.8", 300⟩]⟩, true)) ∧
    (resolveQuestionDyn sampleRegistry ["1.2.3.4", "5.6.7.8"] "example.com"
        ⟨"bob" ++ "." ++ "example.com", .A⟩ = some none ∧
      registryStage sampleRegistry ["1.2.3.4", "5.6.7.8"] "example.com"
        ⟨[⟨"bob" ++ "." ++ "example.com", .A⟩]⟩ ⟨[]⟩ = some (⟨[]⟩, true)) := by
  constructor
  · exact (registryStage_a_record sampleRegistry ["1.2.3.4", "5.6.7.8"] "example.com"
      "alice" 1 (by decide) (by decide) rfl).1 (by decide)
  · exact (registryStage_a_record sampleRegistry ["1.2.3.4", "5.6.7.8"] "example.com"
      "bob" 0 (by decide) (by decide) rfl).2 rfl

/-- C3: The pattern matcher extracts a username only from names of the
exact shapes `_weird.<username>.<parent>` (TXT) and `<username>.<parent>`
(A), where the username is a single (possibly empty) dot-free label and
the parent domain occurs literally: the compiled patterns are exactly
`txtAtomsOf`/`aAtomsOf`, the matchers succeed precisely on those shapes
(so extra labels, a different verification prefix, or a wrong parent
suffix yield no match), the matchers agree with the compiled patterns'
matching semantics, and — because the parent domain is escaped before
embedding — its interpolated part compiles to a sequence of literal atoms
whose language is the parent domain itself, so a dot in it matches only
a literal dot. -/
theorem patternMatcher_exact (parent name u : String) (s₂ : List Char) :
    weirdHostTxtRecordRegex parent = some (txtAtomsOf parent) ∧
    weirdHostARecordRegex parent = some (aAtomsOf parent) ∧
    (txtMatch parent name = some u ↔
      name.data = "_weird.".data ++ u.data ++ '.' :: parent.data ∧ ∀ c ∈ u.data, c ≠ '.') ∧
    (aMatch parent name = some u ↔
      name.data = u.data ++ '.' :: parent.data ∧ ∀ c ∈ u.data, c ≠ '.') ∧
    ((∃ w, txtMatch parent name = some w) ↔ RMatch (seqRE (txtAtomsOf parent)) name.data) ∧
    ((∃ w, aMatch parent name = some w) ↔ RMatch (seqRE (aAtomsOf parent)) name.data) ∧
    (compileAtoms (escapeStringForEmbeddingInRegex parent).data =
      some (parent.data.map RE.lit)) ∧
    (RMatch (seqRE (parent.data.map RE.lit)) s₂ ↔ s₂ = parent.data) :=
  ⟨weirdHostTxtRecordRegex_eq parent, weirdHostARecordRegex_eq parent,
    txtMatch_eq_some_iff parent name u, aMatch_eq_some_iff parent name u,
    txtMatch_lang parent name, aMatch_lang parent name,
    compileAtoms_escape_str parent, rmatch_litSeq_iff parent.data s₂⟩

/-- C4 as stated is false on the code: on a response that already has an
answer the forwarding stage returns early *without* calling `next` (the
source's early exit at lines 130–132 is a bare `return`, not
`return next()`). -/
theorem stages_skip_answered_cx :
    (Response.mk [⟨"example.com", .A, "1.2.3.4", 300⟩]).answers ≠ [] ∧
    (forwardStage sampleUpstream (localServerOf 53) ⟨[⟨"example.com", .A⟩]⟩
        ⟨[⟨"example.com", .A, "1.2.3.4", 300⟩]⟩).2 = false := by
  refine ⟨by decide, rfl⟩

/-- C4 (amended: the forwarding stage does not call the next stage).  For
every request, both the dynamic-registry stage and the forwarding stage,
when the response already contains at least one answer, do no
per-question work (the result does not depend on the registry, the
self-IP set or the upstream resolvers, all of which are universally
quantified here) and exit immediately leaving the response unchanged;
the dynamic-registry stage exits by calling the next stage, while the
forwarding stage returns without calling it. -/
theorem stages_skip_answered (reg : Registry) (selfIps : List String) (parent : String)
    (up : Upstream) (ls : String) (req : Request) (res : Response)
    (h : res.answers ≠ []) :
    registryStage reg selfIps parent req res = some (res, true) ∧
    forwardStage up ls req res = (res, false) := by
  have hl : res.answers.length > 0 := by
    cases hres : res.answers with
    | nil => exact absurd hres h
    | cons a l => simp [hres]
  constructor
  · simp [registryStage, hl]
  · simp [forwardStage, hl]

theorem stages_skip_answered_witness :
    registryStage sampleRegistry ["1.2.3.4"] "example.com" ⟨[⟨"example.com", .A⟩]⟩
        ⟨[⟨"example.com", .A, "1.2.3.4", 300⟩]⟩ =
      some (⟨[⟨"example.com", .A, "1.2.3.4", 300⟩]⟩, true) ∧
    forwardStage sampleUpstream (localServerOf 53) ⟨[⟨"example.com", .A⟩]⟩
        ⟨[⟨"example.com", .A, "1.2.3.4", 300⟩]⟩ =
      (⟨[⟨"example.com", .A, "1.2.3.4", 300⟩]⟩, false) :=
  stages_skip_answered sampleRegistry ["1.2.3.4"] "example.com" sampleUpstream
    (localServerOf 53) ⟨[⟨"example.com", .A⟩]⟩
    ⟨[⟨"example.com", .A, "1.2.3.4", 300⟩]⟩ (by decide)

/-- C5: The dynamic-registry stage is idempotent on an answered response:
whenever the answer set is non-empty it returns `next()` at once, leaving
the answer set exactly as it was — and since the registry, self-IP set,
parent domain and question list are universally quantified, the result
involves no registry lookup and appends nothing. -/
theorem registryStage_idempotent_on_answered (reg : Registry) (selfIps : List String)
    (parent : String) (req : Request) (res : Response) (h : res.answers ≠ []) :
    registryStage reg selfIps parent req res = some (res, true) := by
  have hl : res.answers.length > 0 := by
    cases hres : res.answers with
    | nil => exact absurd hres h
    | cons a l => simp [hres]
  simp [registryStage, hl]

theorem registryStage_idempotent_on_answered_witness :
    registryStage failingRegistry [] "example.com" ⟨[⟨"_weird.alice.example.com", .TXT⟩]⟩
        ⟨[⟨"example.com", .A, "1.2.3.4", 300⟩]⟩ =
      some (⟨[⟨"example.com", .A, "1.2.3.4", 300⟩]⟩, true) :=
  registryStage_idempotent_on_answered failingRegistry [] "example.com"
    ⟨[⟨"_weird.alice.example.com", .TXT⟩]⟩
    ⟨[⟨"example.com", .A, "1.2.3.4", 300⟩]⟩ (by decide)

/-- C6: what the code actually does when a registry operation fails.  The
rejected registry promise throws inside the `async` promise executor, so
the per-question promise is never resolved, the `Promise.all` join never
completes, and the stage neither answers nor calls `next` — the request
stalls (`none`) instead of failing open to "no answer".  Evaluated here
at the failing input: a registry whose `get` fails with a transport
error, and a TXT question for a matching name. -/
theorem registryStage_registry_error_stalls :
    resolveQuestionDyn failingRegistry ["1.2.3.4"] "example.com"
      ⟨"_weird.alice.example.com", .TXT⟩ = none ∧
    registryStage failingRegistry ["1.2.3.4"] "example.com"
      ⟨[⟨"_weird.alice.example.com", .TXT⟩]⟩ ⟨[]⟩ = none ∧
    resolveQuestionDyn failingRegistry ["1.2.3.4"] "example.com"
      ⟨"alice.example.com", .A⟩ = none ∧
    registryStage failingRegistry ["1.2.3.4"] "example.com"
      ⟨[⟨"alice.example.com", .A⟩]⟩ ⟨[]⟩ = none := by
  refine ⟨rfl, rfl, rfl, rfl⟩

/-- C7: Every pipeline stage only appends to the answers already
committed to the response: for the static-store stage, the
dynamic-registry stage (whenever it completes) and the forwarding stage,
the resulting answer sequence is the previous answer sequence followed by
some (possibly empty) tail — nothing is removed or reordered. -/
theorem pipeline_stages_append_only (store : List ((String × RType) × List Answer))
    (reg : Registry) (selfIps : List String) (parent : String)
    (up : Upstream) (ls : String) (req : Request) (res : Response) :
    (∃ t, (staticStage store req res).1.answers = res.answers ++ t) ∧
    (∀ res₂ nc, registryStage reg selfIps parent req res = some (res₂, nc) →
      ∃ t, res₂.answers = res.answers ++ t) ∧
    (∃ t, (forwardStage up ls req res).1.answers = res.answers ++ t) := by
  refine ⟨⟨_, rfl⟩, ?_, ?_⟩
  · intro res₂ nc h
    rw [registryStage] at h
    simp only [] at h
    split at h
    · refine ⟨[], ?_⟩
      injection h with h'
      injection h' with h₁ h₂
      simp [← h₁]
    · split at h
      · injection h with h'
        injection h' with h₁ h₂
        subst h₁
        split
        · exact ⟨_, rfl⟩
        · exact ⟨[], by simp⟩
      · cases h
  · rw [forwardStage]
    split
    · exact ⟨[], by simp⟩
    · exact ⟨_, rfl⟩

theorem pipeline_stages_append_only_witness :
    ∃ t, (Response.mk [⟨"example.com", RType.A, "1.2.3.4", 300⟩]).answers =
      (Response.mk [⟨"example.com", RType.A, "1.2.3.4", 300⟩]).answers ++ t :=
  (pipeline_stages_append_only [] sampleRegistry ["1.2.3.4"] "example.com" sampleUpstream
    (localServerOf 53) ⟨[]⟩ ⟨[⟨"example.com", RType.A, "1.2.3.4", 300⟩]⟩).2.1
    ⟨[⟨"example.com", RType.A, "1.2.3.4", 300⟩]⟩ true rfl

/-- C8: In development mode, for every NS question reaching the
forwarding stage with no prior answers, the stage produces exactly one
answer for that question, whose data is the local process address
`127.0.0.1:<DNS port>` and whose ttl is 300 — independently of the
registry (which the forwarder never consults) and of the upstream
resolvers (universally quantified here, hence never consulted). -/
theorem forwardStage_ns_local (up : Upstream) (port : Nat) (name : String) :
    resolveQuestionFwd up (localServerOf port) ⟨name, .NS⟩ =
      some [⟨name, .NS, localServerOf port, 300⟩] ∧
    forwardStage up (localServerOf port) ⟨[⟨name, .NS⟩]⟩ ⟨[]⟩ =
      (⟨[⟨name, .NS, localServerOf port, 300⟩]⟩, true) := by
  constructor
  · rfl
  · simp [forwardStage, resolveQuestionFwd, respondAnswers]

/-- C9: In the forwarding stage, for every TXT or A question, a
successful upstream resolution is wrapped record-by-record into answers
carrying the question's name and type and ttl 300, a failed upstream
resolution yields the empty answer list for that question (the error is
swallowed), and on an unanswered response the stage always completes,
processing every question of the request and appending the flattened
per-question results. -/
theorem forwardStage_forwarding (up : Upstream) (ls : String) (q : Question)
    (recs : List String) (e : Unit) (req : Request) (res : Response) :
    ((q.type = .TXT ∨ q.type = .A) → up q.name q.type = Except.ok recs →
      resolveQuestionFwd up ls q =
        some (recs.map (fun r => ⟨q.name, q.type, r, 300⟩))) ∧
    ((q.type = .TXT ∨ q.type = .A) → up q.name q.type = Except.error e →
      resolveQuestionFwd up ls q = some []) ∧
    (res.answers = [] →
      forwardStage up ls req res =
        (⟨((req.questions.map (resolveQuestionFwd up ls)).filterMap id).flatten⟩, true)) := by
  refine ⟨?_, ?_, ?_⟩
  · rintro (ht | ht) hup <;> rw [ht] at hup <;> simp [resolveQuestionFwd, ht, hup]
  · rintro (ht | ht) hup <;> rw [ht] at hup <;> simp [resolveQuestionFwd, ht, hup]
  · intro ha
    cases res with
    | mk answers =>
      simp at ha
      subst ha
      simp [forwardStage, respondAnswers]

theorem forwardStage_forwarding_witness :
    resolveQuestionFwd sampleUpstream (localServerOf 53) ⟨"example.org", .A⟩ =
      some [⟨"example.org", .A, "93.184.216.34", 300⟩] ∧
    resolveQuestionFwd failingUpstream (localServerOf 53) ⟨"example.org", .TXT⟩ = some [] ∧
    forwardStage sampleUpstream (localServerOf 53) ⟨[⟨"example.org", .A⟩]⟩ ⟨[]⟩ =
      (⟨[⟨"example.org", .A, "93.184.216.34", 300⟩]⟩, true) := by
  refine ⟨?_, ?_, ?_⟩
  · exact (forwardStage_forwarding sampleUpstream (localServerOf 53) ⟨"example.org", .A⟩
      ["93.184.216.34"] () ⟨[]⟩ ⟨[]⟩).1 (Or.inr rfl) rfl
  · exact (forwardStage_forwarding failingUpstream (localServerOf 53) ⟨"example.org", .TXT⟩
      [] () ⟨[]⟩ ⟨[]⟩).2.1 (Or.inl rfl) rfl
  · exact (forwardStage_forwarding sampleUpstream (localServerOf 53) ⟨"example.org", .A⟩
      [] () ⟨[⟨"example.org", .A⟩]⟩ ⟨[]⟩).2.2 rfl

/-- C10: A query name whose free username label is empty is treated as a
non-match by the dynamic-registry stage: although the patterns themselves
admit an empty capture (`_weird..<parent>` for TXT, `.<parent>` for A),
the JavaScript truthiness guard on the captured string resolves the
question to no answer, and — the registry being universally quantified —
no registry lookup is performed. -/
theorem registryStage_empty_username (reg : Registry) (selfIps : List String)
    (parent name : String) :
    (txtMatch parent name = some "" →
      resolveQuestionDyn reg selfIps parent ⟨name, .TXT⟩ = some none) ∧
    (aMatch parent name = some "" →
      resolveQuestionDyn reg selfIps parent ⟨name, .A⟩ = some none) := by
  constructor
  · intro hm; simp [resolveQuestionDyn, hm]
  · intro hm; simp [resolveQuestionDyn, hm]

theorem registryStage_empty_username_witness :
    resolveQuestionDyn failingRegistry ["1.2.3.4"] "example.com"
      ⟨"_weird..example.com", .TXT⟩ = some none ∧
    resolveQuestionDyn failingRegistry ["1.2.3.4"] "example.com"
      ⟨".example.com", .A⟩ = some none :=
  ⟨(registryStage_empty_username failingRegistry ["1.2.3.4"] "example.com"
      "_weird..example.com").1 rfl,
    (registryStage_empty_username failingRegistry ["1.2.3.4"] "example.com"
      ".example.com").2 rfl⟩
